import Mathlib

/-!
Verification of the name-keyed factory registry of `src/register.h`
(repository hpfdf/square-merge-game).

The registry is a process-wide `std::unordered_map<std::string,
RegisterCreatorBase<Base, Argument...>*>` called `creators_`, scoped per
(base type, argument signature) pair, together with the static operations
`Create`, `CreateUnique`, `CreateShared`, `HasChild`, `RemoveChild`,
`SetChild<Child>` and `GetChildren` of `RegisterBase`, and the per-child
operations `GetName` / `SetName` of `Register<Child, Base, Name>`.

Shallow embedding choices:
* A concrete C++ child class is identified by a natural number.
* A stored `RegisterCreatorBase*` pointer is `CreatorPtr`: the null
  pointer, a pointer to the `RegisterCreatorBase` singleton (whose
  virtual `Create` returns `nullptr`, register.h:118-120), or a pointer
  to the `RegisterCreator<Child, ...>` singleton for a child class
  (whose `Create` returns `new Child(args...)`, register.h:125-127).
* The contents of the `unordered_map` are modelled as an association
  list in the internal iteration order of the container; since that
  order is unspecified in C++, the model fixes one realizable order:
  a freshly inserted key is appended at the end.
* The constructor-argument pack `Argument...` is a type parameter `Arg`;
  the no-argument instantiation mode takes `Unit` for `Arg`.
* A constructed instance records the concrete child class that built it
  (its runtime type) and the arguments it was built from; a null
  `Base*` result is `none`.
-/

namespace Reg

/-- Value of type `RegisterCreatorBase<Base, Argument...>*` as stored in
the registry table: the null pointer (the value default-inserted by
`operator[]` on a missing key), a pointer to the base creator singleton,
or a pointer to the creator singleton of a concrete child class,
identified by a numeric id. -/
inductive CreatorPtr where
  | null : CreatorPtr
  | basePtr : CreatorPtr
  | childPtr (child : Nat) : CreatorPtr
deriving DecidableEq

/-- An object constructed by a creator: it carries the runtime concrete
type (the child id) and the constructor arguments it received. -/
structure Inst (Arg : Type) where
  type : Nat
  arg : Arg
deriving DecidableEq

/-- Invocation `ptr->Create(args...)` of a stored creator pointer.
`RegisterCreatorBase::Create` returns `nullptr` (register.h:118-120);
`RegisterCreator<Child>::Create` returns `new Child(args...)`
(register.h:125-127), a fresh non-null instance of the child type.
Dereferencing the null pointer is undefined behaviour in C++; the code
never does it (`Create` guards with `count`), and the model maps it to
`none`. -/
def CreatorPtr.invoke {Arg : Type} : CreatorPtr → Arg → Option (Inst Arg)
  | .null, _ => none
  | .basePtr, _ => none
  | .childPtr c, a => some ⟨c, a⟩

/-- The registry table `creators_` (register.h:145-146, 201-202):
association list of (name, creator pointer), kept in the internal
iteration order of the `unordered_map`. -/
abbrev RegisterTable := List (String × CreatorPtr)

/-- Lookup of a key in the table, as done by `count` / `find` /
`operator[]` of the map. -/
def findPtr : RegisterTable → String → Option CreatorPtr
  | [], _ => none
  | (k, v) :: rest, n => if k = n then some v else findPtr rest n

/-- Number of entries with the given key, as returned by
`creators_.count(name)`; 0 or 1 for `unordered_map`. -/
def count (t : RegisterTable) (n : String) : Nat :=
  match findPtr t n with
  | some _ => 1
  | none => 0

/-- Semantics of `creators_[name]` (map `operator[]`): returns the
mapped value, default-inserting a null pointer first when the key is
absent; also returns the possibly-mutated table. A new key is appended
at the end of the modelled iteration order. -/
def mapIndex : RegisterTable → String → CreatorPtr × RegisterTable
  | [], n => (CreatorPtr.null, [(n, CreatorPtr.null)])
  | (k, v) :: rest, n =>
      if k = n then (v, (k, v) :: rest)
      else ((mapIndex rest n).1, (k, v) :: (mapIndex rest n).2)

/-- Semantics of the assignment `creators_[name] = p`: default-insert
then overwrite, i.e. update the value when the key is present and append
the pair otherwise. -/
def mapAssign : RegisterTable → String → CreatorPtr → RegisterTable
  | [], n, p => [(n, p)]
  | (k, v) :: rest, n, p =>
      if k = n then (k, p) :: rest
      else (k, v) :: mapAssign rest n p

/-- Semantics of `creators_.erase(creators_.find(name))`: remove the
entry found for the key, if any. -/
def eraseKey : RegisterTable → String → RegisterTable
  | [], _ => []
  | (k, v) :: rest, n => if k = n then rest else (k, v) :: eraseKey rest n

/-- `RegisterBase::Create` (register.h:148-153): if `count(name)` is
zero return null, else invoke `creators_[name]->Create(args...)`. The
table is part of the result because `operator[]` can in general mutate
the map; faithfulness requires tracking that. -/
def Create {Arg : Type} (t : RegisterTable) (n : String) (a : Arg) :
    Option (Inst Arg) × RegisterTable :=
  if count t n = 0 then (none, t)
  else ((mapIndex t n).1.invoke a, (mapIndex t n).2)

/-- Effect of `RegisterBase::CreateUnique` (register.h:155-157) on the
constructed value and the table: it wraps the pointer obtained from
`Create` in a `unique_ptr` temporary and touches nothing else. The
lifetime of the returned handle is modelled separately by
`createUniqueEvents`. -/
def CreateUnique {Arg : Type} (t : RegisterTable) (n : String) (a : Arg) :
    Option (Inst Arg) × RegisterTable :=
  Create t n a

/-- Effect of `RegisterBase::CreateShared` (register.h:159-161) on the
constructed value and the table: it wraps the pointer obtained from
`Create` in a `shared_ptr` and touches nothing else. -/
def CreateShared {Arg : Type} (t : RegisterTable) (n : String) (a : Arg) :
    Option (Inst Arg) × RegisterTable :=
  Create t n a

/-- `RegisterBase::HasChild` (register.h:163-165): `creators_.count(name)`
converted to `bool`. -/
def HasChild (t : RegisterTable) (n : String) : Bool :=
  count t n != 0

/-- `RegisterBase::RemoveChild` (register.h:167-173): if the name is
present, erase it and return true; otherwise return false. -/
def RemoveChild (t : RegisterTable) (n : String) : Bool × RegisterTable :=
  if HasChild t n then (true, eraseKey t n)
  else (false, t)

/-- `RegisterBase::SetChild<Child>` (register.h:175-184): fail on the
empty name or on an already-bound name, otherwise store the creator
singleton of the child class under the name. (The source spells the
stored pointer `RegisterCreatorContainer<Child, Base>::GetCreator()`,
dropping the `Argument...` pack; in the no-argument mode this is the
creator of `Child` as modelled here.) -/
def SetChild (t : RegisterTable) (child : Nat) (n : String) : Bool × RegisterTable :=
  if n ≠ "" then
    if HasChild t n then (false, t)
    else (true, mapAssign t n (CreatorPtr.childPtr child))
  else (false, t)

/-- `RegisterBase::GetChildren` (register.h:186-191): pushes the key of
every entry in the iteration order of the table and performs no sort.
(As written the loop body is `it->first` where `it` is a reference to a
pair, which does not compile; this embeds the evidently intended
`it.first`.) -/
def GetChildren (t : RegisterTable) : List String :=
  t.map Prod.fst

/-- `Register::GetName` (register.h:228-230): returns the static member
`name_` of the child wrapper. -/
def GetName (curName : String) : String :=
  curName

/-- `Register::SetName` (register.h:232-239): remove the binding of the
current `name_` (ignoring the result), then attempt `SetChild` under the
new name; on success update `name_`, on failure keep it. The state of a
child wrapper is the pair (registry table, `name_`). -/
def SetName (t : RegisterTable) (curName : String) (child : Nat) (n : String) :
    Bool × RegisterTable × String :=
  if (SetChild (RemoveChild t curName).2 child n).1 then
    (true, (SetChild (RemoveChild t curName).2 child n).2, n)
  else
    (false, (SetChild (RemoveChild t curName).2 child n).2, curName)

/-- Registry-table states reachable through the public operations from
the initial empty table. `SetName` is the composition of a `remove` and
a `set` step; the lazy self-registration of `RegisterActivator`
(register.h:208-215) performs a single `SetChild` call, hence a `set`
step. `Create` is included because `operator[]` makes its table effect
non-obvious. -/
inductive Reachable : RegisterTable → Prop where
  | empty : Reachable []
  | set : ∀ {t : RegisterTable} (child : Nat) (n : String),
      Reachable t → Reachable (SetChild t child n).2
  | remove : ∀ {t : RegisterTable} (n : String),
      Reachable t → Reachable (RemoveChild t n).2
  | create : ∀ {t : RegisterTable} (n : String),
      Reachable t → Reachable (Create t n ()).2

/-- Well-formedness of a table state: keys are pairwise distinct, no key
is the empty string, and every stored pointer is the creator singleton
of some child class. -/
def goodTable (t : RegisterTable) : Prop :=
  (t.map Prod.fst).Nodup ∧
    ∀ p ∈ t, p.1 ≠ "" ∧ ∃ c : Nat, p.2 = CreatorPtr.childPtr c

/-- Lifetime events of the single instance produced by one successful
call of `CreateUnique`, in the order in which they happen. -/
inductive LifeEvent where
  | allocInstance : LifeEvent
  | releaseInstance : LifeEvent
  | returnToCaller : LifeEvent
  | callerScopeEnds : LifeEvent
deriving DecidableEq

/-- Modelled event order of `CreateUnique` as written (register.h:155-157):
`static uptr&& CreateUnique(...) { return uptr(Create(name, args...)); }`.
The `unique_ptr` is a function-local temporary; the declared return type
`uptr&&` binds an rvalue reference to it without extending its lifetime,
so the destructor of the temporary, which deletes the instance, runs
when the return full-expression ends, before control is back in the
caller. The reference the caller receives is dangling. -/
def createUniqueEvents : List LifeEvent :=
  [LifeEvent.allocInstance, LifeEvent.releaseInstance,
   LifeEvent.returnToCaller, LifeEvent.callerScopeEnds]

/-- Event order promised by the header documentation (register.h:31-37
declares the return type as `Base::uptr` by value and says the memory of
created objects will be automatically cleared) and by the spec: the
instance is released exactly once, when the handle held by the caller
goes out of scope. -/
def documentedUniqueEvents : List LifeEvent :=
  [LifeEvent.allocInstance, LifeEvent.returnToCaller,
   LifeEvent.callerScopeEnds, LifeEvent.releaseInstance]

/-- Concrete table for the enumeration-order scenario: registrations
under Banana, Apple, Cherry, in that call order, starting from the
empty table. -/
def c2Table : RegisterTable :=
  (SetChild (SetChild (SetChild ([] : RegisterTable) 1 ("Banana")).2
    2 ("Apple")).2 3 ("Cherry")).2

/-- Concrete table for the renaming scenario: child 1 registered under
name A and child 2 registered under name B. -/
def c8Table : RegisterTable :=
  (SetChild (SetChild ([] : RegisterTable) 1 ("A")).2 2 ("B")).2

/-! Basic lemmas about table lookup and the table-editing primitives. -/

theorem findPtr_mem {t : RegisterTable} {n : String} {v : CreatorPtr}
    (h : findPtr t n = some v) : (n, v) ∈ t := by
  induction t with
  | nil => simp [findPtr] at h
  | cons p rest ih =>
    obtain ⟨k, w⟩ := p
    by_cases hk : k = n
    · subst hk
      simp [findPtr] at h
      subst h
      exact List.mem_cons_self _ _
    · simp [findPtr, hk] at h
      exact List.mem_cons_of_mem _ (ih h)

theorem findPtr_eq_none {t : RegisterTable} {n : String} :
    findPtr t n = none ↔ ∀ p ∈ t, p.1 ≠ n := by
  induction t with
  | nil => simp [findPtr]
  | cons p rest ih =>
    obtain ⟨k, w⟩ := p
    by_cases hk : k = n
    · subst hk
      simp [findPtr]
    · simp [findPtr, hk, ih]

theorem count_eq_zero {t : RegisterTable} {n : String} :
    count t n = 0 ↔ findPtr t n = none := by
  unfold count
  cases h : findPtr t n <;> simp

theorem hasChild_false {t : RegisterTable} {n : String} :
    HasChild t n = false ↔ findPtr t n = none := by
  unfold HasChild count
  cases h : findPtr t n <;> simp

theorem hasChild_true {t : RegisterTable} {n : String} :
    HasChild t n = true ↔ ∃ v, findPtr t n = some v := by
  unfold HasChild count
  cases h : findPtr t n <;> simp

theorem findPtr_mapAssign_self {t : RegisterTable} {n : String} {p : CreatorPtr} :
    findPtr (mapAssign t n p) n = some p := by
  induction t with
  | nil => simp [mapAssign, findPtr]
  | cons q rest ih =>
    obtain ⟨k, w⟩ := q
    by_cases hk : k = n
    · subst hk
      simp [mapAssign, findPtr]
    · simp [mapAssign, findPtr, hk, ih]

theorem findPtr_mapAssign_ne {t : RegisterTable} {m n : String} {p : CreatorPtr}
    (h : m ≠ n) : findPtr (mapAssign t n p) m = findPtr t m := by
  induction t with
  | nil =>
    simp [mapAssign, findPtr, Ne.symm h]
  | cons q rest ih =>
    obtain ⟨k, w⟩ := q
    by_cases hk : k = n
    · subst hk
      have hkm : ¬ k = m := fun hkm => h (hkm ▸ rfl)
      simp [mapAssign, findPtr, hkm]
    · by_cases hkm : k = m
      · subst hkm
        simp [mapAssign, findPtr, hk]
      · simp [mapAssign, findPtr, hk, hkm, ih]

theorem mapAssign_of_none {t : RegisterTable} {n : String} {p : CreatorPtr}
    (h : findPtr t n = none) : mapAssign t n p = t ++ [(n, p)] := by
  induction t with
  | nil => simp [mapAssign]
  | cons q rest ih =>
    obtain ⟨k, w⟩ := q
    by_cases hk : k = n
    · subst hk
      simp [findPtr] at h
    · simp [findPtr, hk] at h
      simp [mapAssign, hk, ih h]

theorem mapIndex_of_some {t : RegisterTable} {n : String} {v : CreatorPtr}
    (h : findPtr t n = some v) : mapIndex t n = (v, t) := by
  induction t with
  | nil => simp [findPtr] at h
  | cons q rest ih =>
    obtain ⟨k, w⟩ := q
    by_cases hk : k = n
    · subst hk
      simp [findPtr] at h
      subst h
      simp [mapIndex]
    · simp [findPtr, hk] at h
      simp [mapIndex, hk, ih h]

theorem eraseKey_sublist (t : RegisterTable) (n : String) :
    (eraseKey t n).Sublist t := by
  induction t with
  | nil => simp [eraseKey]
  | cons q rest ih =>
    obtain ⟨k, w⟩ := q
    by_cases hk : k = n
    · simp only [eraseKey, hk, if_pos rfl]
      exact List.sublist_cons_self _ _
    · simp only [eraseKey, hk, if_neg hk]
      exact ih.cons₂ _

theorem findPtr_eraseKey_ne {t : RegisterTable} {m n : String}
    (h : m ≠ n) : findPtr (eraseKey t n) m = findPtr t m := by
  induction t with
  | nil => simp [eraseKey]
  | cons q rest ih =>
    obtain ⟨k, w⟩ := q
    by_cases hk : k = n
    · subst hk
      have hkm : ¬ k = m := fun hkm => h (hkm ▸ rfl)
      simp [eraseKey, findPtr, hkm]
    · simp [eraseKey, findPtr, hk, ih]

theorem findPtr_eraseKey_self {t : RegisterTable} {n : String}
    (hnd : (t.map Prod.fst).Nodup) : findPtr (eraseKey t n) n = none := by
  induction t with
  | nil => simp [eraseKey, findPtr]
  | cons q rest ih =>
    obtain ⟨k, w⟩ := q
    simp only [List.map_cons, List.nodup_cons] at hnd
    by_cases hk : k = n
    · subst hk
      simp only [eraseKey, if_pos rfl]
      rw [findPtr_eq_none]
      intro p hp
      exact fun hpk => hnd.1 (hpk ▸ List.mem_map_of_mem Prod.fst hp)
    · simp [eraseKey, findPtr, hk, ih hnd.2]

/-! Lemmas about the registry operations. -/

theorem create_snd {Arg : Type} {t : RegisterTable} {n : String} {a : Arg} :
    (Create t n a).2 = t := by
  unfold Create
  by_cases h : count t n = 0
  · simp [h]
  · obtain ⟨v, hv⟩ : ∃ v, findPtr t n = some v := by
      cases hfp : findPtr t n with
      | none => exact absurd (count_eq_zero.mpr hfp) h
      | some v => exact ⟨v, rfl⟩
    simp [h, mapIndex_of_some hv]

theorem create_of_none {Arg : Type} {t : RegisterTable} {n : String} {a : Arg}
    (h : findPtr t n = none) : Create t n a = (none, t) := by
  simp [Create, count_eq_zero.mpr h]

theorem create_of_childPtr {Arg : Type} {t : RegisterTable} {n : String} {c : Nat}
    {a : Arg} (h : findPtr t n = some (CreatorPtr.childPtr c)) :
    (Create t n a).1 = some ⟨c, a⟩ := by
  have hc : ¬ count t n = 0 := by
    simp [count, h]
  simp [Create, hc, mapIndex_of_some h, CreatorPtr.invoke]

theorem setChild_success {t : RegisterTable} {c : Nat} {n : String}
    (hn : n ≠ "") (hf : HasChild t n = false) :
    SetChild t c n = (true, mapAssign t n (CreatorPtr.childPtr c)) := by
  simp [SetChild, hn, hf]

theorem setChild_fst_true {t : RegisterTable} {c : Nat} {n : String}
    (h : (SetChild t c n).1 = true) : n ≠ "" ∧ HasChild t n = false := by
  unfold SetChild at h
  split_ifs at h with hn hc
  · exact ⟨hn, by simpa using hc⟩

theorem setChild_of_hasChild {t : RegisterTable} {c : Nat} {n : String}
    (h : HasChild t n = true) : SetChild t c n = (false, t) := by
  simp [SetChild, h]

theorem goodTable_nil : goodTable [] :=
  ⟨List.nodup_nil, by simp⟩

theorem goodTable_setChild {t : RegisterTable} {c : Nat} {n : String}
    (hg : goodTable t) : goodTable (SetChild t c n).2 := by
  unfold SetChild
  split_ifs with hn hc
  · exact hg
  · have hf : findPtr t n = none :=
      hasChild_false.mp (by simpa using hc)
    rw [mapAssign_of_none hf]
    refine ⟨?_, ?_⟩
    · rw [List.map_append]
      refine List.Nodup.append hg.1 (by simp) ?_
      intro x hx hx1
      simp at hx1
      subst hx1
      obtain ⟨p, hp, hpx⟩ := List.mem_map.mp hx
      exact (findPtr_eq_none.mp hf p hp) hpx
    · intro p hp
      rcases List.mem_append.mp hp with hp1 | hp2
      · exact hg.2 p hp1
      · simp at hp2
        subst hp2
        exact ⟨hn, c, rfl⟩
  · exact hg

theorem goodTable_removeChild {t : RegisterTable} {n : String}
    (hg : goodTable t) : goodTable (RemoveChild t n).2 := by
  unfold RemoveChild
  split_ifs with h
  · refine ⟨hg.1.sublist ((eraseKey_sublist t n).map Prod.fst), ?_⟩
    intro p hp
    exact hg.2 p ((eraseKey_sublist t n).subset hp)
  · exact hg

theorem reachable_good {t : RegisterTable} (h : Reachable t) : goodTable t := by
  induction h with
  | empty => exact goodTable_nil
  | set c n _ ih => exact goodTable_setChild ih
  | remove n _ ih => exact goodTable_removeChild ih
  | create n _ ih => rw [create_snd]; exact ih

/-! Claim theorems. -/

/-- C1: for every child type C, every non-empty name N not currently
bound, and every argument list, after `SetChild` of C under N returns
true, `Create` of N returns a non-null instance whose runtime concrete
type is C, and `HasChild` of N returns true. -/
theorem C1_round_trip {Arg : Type} (t : RegisterTable) (c : Nat) (n : String)
    (a : Arg) (hn : n ≠ "") (hfree : HasChild t n = false) :
    (SetChild t c n).1 = true ∧
    (Create (SetChild t c n).2 n a).1 = some ⟨c, a⟩ ∧
    HasChild (SetChild t c n).2 n = true := by
  rw [setChild_success hn hfree]
  exact ⟨rfl, create_of_childPtr findPtr_mapAssign_self,
    hasChild_true.mpr ⟨_, findPtr_mapAssign_self⟩⟩

theorem C1_round_trip_witness :
    (("Apple" : String) ≠ "" ∧ HasChild ([] : RegisterTable) ("Apple") = false) ∧
    ((SetChild ([] : RegisterTable) 1 ("Apple")).1 = true ∧
      (Create (SetChild ([] : RegisterTable) 1 ("Apple")).2
        ("Apple") ()).1 = some ⟨1, ()⟩ ∧
      HasChild (SetChild ([] : RegisterTable) 1 ("Apple")).2 ("Apple") = true) :=
  ⟨⟨by decide, by decide⟩, C1_round_trip [] 1 ("Apple") () (by decide) (by decide)⟩

/-- C2: evidence against the enumeration-order claim. After registering
Banana, Apple, Cherry in that call order, `GetChildren` as implemented
(register.h:186-191) pushes the keys in the iteration order of the table
and never sorts, so in the modelled storage order it returns
[Banana, Apple, Cherry], not the alphabetic [Apple, Banana, Cherry]
promised by the header documentation (register.h:52-54) and the spec. -/
theorem C2_enumeration_order_bug :
    GetChildren c2Table = ["Banana", "Apple", "Cherry"] ∧
    GetChildren c2Table ≠ ["Apple", "Banana", "Cherry"] := by
  decide

/-- C3: in every reachable registry-table state the names are pairwise
distinct, so at most one creator is bound to a given name; and after
`SetChild` of type c1 under N succeeds, a second `SetChild` of a
different type c2 under N returns false, leaves the table unchanged, and
`Create` of N still produces an instance of the first type c1. -/
theorem C3_uniqueness {Arg : Type} :
    (∀ t : RegisterTable, Reachable t → (t.map Prod.fst).Nodup) ∧
    (∀ (t : RegisterTable) (c1 c2 : Nat) (n : String) (a : Arg),
      (SetChild t c1 n).1 = true → c2 ≠ c1 →
      (SetChild (SetChild t c1 n).2 c2 n).1 = false ∧
      (SetChild (SetChild t c1 n).2 c2 n).2 = (SetChild t c1 n).2 ∧
      (Create (SetChild t c1 n).2 n a).1 = some ⟨c1, a⟩) := by
  constructor
  · intro t ht
    exact (reachable_good ht).1
  · intro t c1 c2 n a h1 _
    obtain ⟨hn, hf⟩ := setChild_fst_true h1
    rw [setChild_success hn hf]
    have hfind : findPtr (mapAssign t n (CreatorPtr.childPtr c1)) n =
        some (CreatorPtr.childPtr c1) := findPtr_mapAssign_self
    rw [setChild_of_hasChild (hasChild_true.mpr ⟨_, hfind⟩)]
    exact ⟨rfl, rfl, create_of_childPtr hfind⟩

theorem C3_uniqueness_witness :
    ((([] : RegisterTable).map Prod.fst).Nodup) ∧
    ((SetChild (SetChild ([] : RegisterTable) 1 ("Apple")).2 2 ("Apple")).1 = false ∧
      (SetChild (SetChild ([] : RegisterTable) 1 ("Apple")).2 2 ("Apple")).2 =
        (SetChild ([] : RegisterTable) 1 ("Apple")).2 ∧
      (Create (SetChild ([] : RegisterTable) 1 ("Apple")).2
        ("Apple") ()).1 = some ⟨1, ()⟩) :=
  ⟨(@C3_uniqueness Unit).1 [] Reachable.empty,
   (@C3_uniqueness Unit).2 [] 1 2 ("Apple") () (by decide) (by decide)⟩

/-- C4: for every reachable table state, every name and every argument
list, `Create` returns null exactly when the name is not bound, i.e.
when `HasChild` is false. The model has no exception channel, matching
the code, which signals the failure only through the null return. -/
theorem C4_unknown_name {Arg : Type} (t : RegisterTable) (n : String) (a : Arg)
    (ht : Reachable t) :
    (Create t n a).1 = none ↔ HasChild t n = false := by
  cases hfp : findPtr t n with
  | none =>
    rw [create_of_none hfp]
    simp [hasChild_false.mpr hfp]
  | some v =>
    obtain ⟨-, c, rfl⟩ := (reachable_good ht).2 (n, v) (findPtr_mem hfp)
    rw [create_of_childPtr hfp]
    simp [hasChild_true.mpr ⟨_, hfp⟩]

theorem C4_unknown_name_witness :
    (Create (SetChild ([] : RegisterTable) 1 ("Apple")).2
      ("Banana") ()).1 = none ↔
    HasChild (SetChild ([] : RegisterTable) 1 ("Apple")).2 ("Banana") = false :=
  C4_unknown_name _ ("Banana") () (Reachable.set 1 ("Apple") Reachable.empty)

/-- C5 counterexample: in the no-argument mode, with Apple registered,
`Create` of the empty name returns null; it does not return a
default-constructed base instance, because `Create` (register.h:148-153)
has no empty-name special case and the empty name is never bound. -/
theorem C5_empty_name_counterexample :
    (Create (SetChild ([] : RegisterTable) 1 ("Apple")).2
      ("") ()).1 = none := by
  decide

/-- C5 amended: in every reachable table state, `Create` of the empty
name returns null and leaves the table unchanged; the empty name is
never bound because `SetChild` rejects it. -/
theorem C5_empty_name_amended {Arg : Type} (t : RegisterTable) (a : Arg)
    (ht : Reachable t) : Create t ("") a = (none, t) := by
  apply create_of_none
  rw [findPtr_eq_none]
  intro p hp
  exact ((reachable_good ht).2 p hp).1

theorem C5_empty_name_amended_witness :
    Create (SetChild ([] : RegisterTable) 1 ("Apple")).2 ("") () =
      (none, (SetChild ([] : RegisterTable) 1 ("Apple")).2) :=
  C5_empty_name_amended _ () (Reachable.set 1 ("Apple") Reachable.empty)

/-- C6: for every reachable table state: if N is bound, `RemoveChild`
returns true, removes exactly the binding of N (N is unbound afterwards
and every other name maps as before), and a subsequent `Create` of N
returns null with `HasChild` false; if N is not bound, `RemoveChild`
returns false and leaves the table unchanged. -/
theorem C6_removal {Arg : Type} (t : RegisterTable) (n : String) (a : Arg)
    (ht : Reachable t) :
    (HasChild t n = true →
      (RemoveChild t n).1 = true ∧
      HasChild (RemoveChild t n).2 n = false ∧
      (Create (RemoveChild t n).2 n a).1 = none ∧
      ∀ m, m ≠ n → findPtr (RemoveChild t n).2 m = findPtr t m) ∧
    (HasChild t n = false → RemoveChild t n = (false, t)) := by
  constructor
  · intro hb
    have hrc : RemoveChild t n = (true, eraseKey t n) := by
      simp [RemoveChild, hb]
    rw [hrc]
    have hnone : findPtr (eraseKey t n) n = none :=
      findPtr_eraseKey_self (reachable_good ht).1
    exact ⟨rfl, hasChild_false.mpr hnone, by simp [create_of_none hnone],
      fun m hm => findPtr_eraseKey_ne hm⟩
  · intro hb
    simp [RemoveChild, hb]

theorem C6_removal_witness :
    (RemoveChild (SetChild ([] : RegisterTable) 1 ("Apple")).2 ("Apple")).1 = true ∧
    HasChild (RemoveChild (SetChild ([] : RegisterTable) 1 ("Apple")).2
      ("Apple")).2 ("Apple") = false ∧
    (Create (RemoveChild (SetChild ([] : RegisterTable) 1
      ("Apple")).2 ("Apple")).2 ("Apple") ()).1 = none := by
  have h := (@C6_removal Unit _ ("Apple") ()
    (Reachable.set 1 ("Apple") Reachable.empty)).1 (by decide)
  exact ⟨h.1, h.2.1, h.2.2.1⟩

/-- C7: evidence against the exclusive-ownership claim. In the lifetime
model of `CreateUnique` as written (return type `uptr&&`, returning a
reference to the function-local temporary `uptr(Create(name, args...))`),
the release of the instance happens strictly before control returns to
the caller, so the handle the caller receives is dangling and the
release does not happen when the caller-side handle leaves scope; the
trace of the code differs from the trace the documentation promises. -/
theorem C7_create_unique_dangling :
    createUniqueEvents.indexOf LifeEvent.releaseInstance <
      createUniqueEvents.indexOf LifeEvent.returnToCaller ∧
    createUniqueEvents ≠ documentedUniqueEvents := by
  decide

/-- C8 counterexample: child 1 is registered under name A and name B is
bound to child 2. `SetName` to B returns false, the binding of A is
removed, child 1 ends up registered under no name — but `GetName`
returns the old name A, not the empty string, refuting the part of the
claim that says the reported name becomes empty. -/
theorem C8_rename_counterexample :
    (SetName c8Table ("A") 1 ("B")).1 = false ∧
    HasChild (SetName c8Table ("A") 1 ("B")).2.1 ("A") = false ∧
    (∀ p ∈ (SetName c8Table ("A") 1 ("B")).2.1,
      p.2 ≠ CreatorPtr.childPtr 1) ∧
    GetName (SetName c8Table ("A") 1 ("B")).2.2 = "A" ∧
    GetName (SetName c8Table ("A") 1 ("B")).2.2 ≠ "" := by
  decide

/-- C8 amended: for a reachable table in which the child type c is
currently registered under O and under no other name, and the new name
N (distinct from O) is already bound, `SetName` returns false, the
binding of O is removed, the type ends up registered under no name, and
`GetName` still reports the old name O — the static member `name_` is
only updated on success (register.h:232-239), so the reported name does
not become empty. -/
theorem C8_rename_amended (t : RegisterTable) (o n : String) (c : Nat)
    (ht : Reachable t)
    (hbound : findPtr t o = some (CreatorPtr.childPtr c))
    (honly : ∀ p ∈ t, p.2 = CreatorPtr.childPtr c → p.1 = o)
    (hne : n ≠ o) (hn : HasChild t n = true) :
    (SetName t o c n).1 = false ∧
    HasChild (SetName t o c n).2.1 o = false ∧
    (∀ m, findPtr (SetName t o c n).2.1 m ≠ some (CreatorPtr.childPtr c)) ∧
    GetName (SetName t o c n).2.2 = o := by
  have hgood := reachable_good ht
  have hrm : RemoveChild t o = (true, eraseKey t o) := by
    simp [RemoveChild, hasChild_true.mpr ⟨_, hbound⟩]
  have hn1 : HasChild (eraseKey t o) n = true := by
    obtain ⟨v, hv⟩ := hasChild_true.mp hn
    exact hasChild_true.mpr ⟨v, by rw [findPtr_eraseKey_ne hne, hv]⟩
  have hsn : SetName t o c n = (false, eraseKey t o, o) := by
    simp [SetName, hrm, setChild_of_hasChild hn1]
  rw [hsn]
  have hself : findPtr (eraseKey t o) o = none :=
    findPtr_eraseKey_self hgood.1
  refine ⟨rfl, hasChild_false.mpr hself, ?_, rfl⟩
  intro m hm
  replace hm : findPtr (eraseKey t o) m = some (CreatorPtr.childPtr c) := hm
  by_cases hmo : m = o
  · subst hmo
    exact Option.noConfusion (hself.symm.trans hm)
  · rw [findPtr_eraseKey_ne hmo] at hm
    exact hmo (honly _ (findPtr_mem hm) rfl)

theorem C8_rename_amended_witness :
    (SetName c8Table ("A") 1 ("B")).1 = false ∧
    HasChild (SetName c8Table ("A") 1 ("B")).2.1 ("A") = false ∧
    (∀ m, findPtr (SetName c8Table ("A") 1 ("B")).2.1 m ≠
      some (CreatorPtr.childPtr 1)) ∧
    GetName (SetName c8Table ("A") 1 ("B")).2.2 = "A" :=
  C8_rename_amended c8Table ("A") ("B") 1
    (Reachable.set 2 ("B") (Reachable.set 1 ("A") Reachable.empty))
    (by decide) (by decide) (by decide) (by decide)

/-- C9: frame property of the construction operations — `Create`,
`CreateUnique` and `CreateShared` leave the name-to-creator table
exactly as it was, for every table state, every name (bound, unbound or
empty) and every argument list. The table is mutated only by `SetChild`
and `RemoveChild`. -/
theorem C9_create_frame {Arg : Type} (t : RegisterTable) (n : String) (a : Arg) :
    (Create t n a).2 = t ∧ (CreateUnique t n a).2 = t ∧
    (CreateShared t n a).2 = t :=
  ⟨create_snd, create_snd, create_snd⟩

/-- C10: in every registry-table state reachable through the public
operations, the empty string is never a bound name; hence `HasChild` of
the empty name returns false, and `RemoveChild` of the empty name
returns false and leaves the table unchanged. -/
theorem C10_empty_never_bound (t : RegisterTable) (ht : Reachable t) :
    HasChild t ("") = false ∧ RemoveChild t ("") = (false, t) := by
  have hnone : findPtr t ("") = none := by
    rw [findPtr_eq_none]
    intro p hp
    exact ((reachable_good ht).2 p hp).1
  have hf : HasChild t ("") = false := hasChild_false.mpr hnone
  exact ⟨hf, by simp [RemoveChild, hf]⟩

theorem C10_empty_never_bound_witness :
    HasChild (SetChild ([] : RegisterTable) 1 ("Apple")).2 ("") = false ∧
    RemoveChild (SetChild ([] : RegisterTable) 1 ("Apple")).2 ("") =
      (false, (SetChild ([] : RegisterTable) 1 ("Apple")).2) :=
  C10_empty_never_bound _ (Reachable.set 1 ("Apple") Reachable.empty)

end Reg
